import Mathlib

/-!
Shallow embedding of the text-extraction pipeline of the `doc` package
(`doc.go`): piece-to-byte-range mapping (`getText`), the compressed and
uncompressed text decoders (`translateCompressedText`,
`translateUncompressedText`), the Windows-1252 special-character table
(`replaceCompressed`), the best-effort legacy fallback
(`handleANSICharacter`) and the reader-selection prologue of `ParseDoc`.

Characters and emitted output are modelled as natural numbers (byte values
on the input side, Unicode scalar values on the output side: the Go code
UTF-8-encodes each emitted scalar into a `bytes.Buffer` via
`utf8.EncodeRune`, so a decoded piece is faithfully represented by the
sequence of scalars written).  The external GBK decoder
(`simplifiedchinese.GBK`, an out-of-scope collaborator per the design) is
modelled as an oracle parameter `dec : Nat → Option (List Nat)`; `some o`
with `o ≠ []` corresponds to the source's success condition
`err == nil && nSrc > 0 && nDst > 0`.
-/

namespace Doc

/-- The fixed special-mapping table of `replaceCompressed` (doc.go lines
206-256): the explicit `case` arms of the `switch` on the byte value,
returning the Unicode scalar `v`; `none` corresponds to the `default`
branch. -/
def replaceCompressedFixed (char : Nat) : Option Nat :=
  match char with
  | 0x82 => some 0x201A -- Single Low-9 Quotation Mark
  | 0x83 => some 0x0192 -- Latin Small Letter F With Hook
  | 0x84 => some 0x201E -- Double Low-9 Quotation Mark
  | 0x85 => some 0x2026 -- Horizontal Ellipsis
  | 0x86 => some 0x2020 -- Dagger
  | 0x87 => some 0x2021 -- Double Dagger
  | 0x88 => some 0x02C6 -- Modifier Letter Circumflex Accent
  | 0x89 => some 0x2030 -- Per Mille Sign
  | 0x8A => some 0x0160 -- Latin Capital Letter S With Caron
  | 0x8B => some 0x2039 -- Single Left-Pointing Angle Quotation Mark
  | 0x8C => some 0x0152 -- Latin Capital Ligature OE
  | 0x91 => some 0x2018 -- Left Single Quotation Mark
  | 0x92 => some 0x2019 -- Right Single Quotation Mark
  | 0x93 => some 0x201C -- Left Double Quotation Mark
  | 0x94 => some 0x201D -- Right Double Quotation Mark
  | 0x95 => some 0x2022 -- Bullet
  | 0x96 => some 0x2013 -- En Dash
  | 0x97 => some 0x2014 -- Em Dash
  | 0x98 => some 0x02DC -- Small Tilde
  | 0x99 => some 0x2122 -- Trade Mark Sign
  | 0x9A => some 0x0161 -- Latin Small Letter S With Caron
  | 0x9B => some 0x203A -- Single Right-Pointing Angle Quotation Mark
  | 0x9C => some 0x0153 -- Latin Small Ligature OE
  | 0x9F => some 0x0178 -- Latin Capital Letter Y With Diaeresis
  | _ => none

/-- `handleANSICharacter` (doc.go lines 274-294): for a byte `>= 0xA1` try
the GBK oracle; emit its output on success (`err == nil && nSrc > 0 &&
nDst > 0`, i.e. `some o` with `o ≠ []`), otherwise fall back to the raw
byte. Bytes `< 0xA1` fall straight through to the raw byte. -/
def handleANSICharacter (dec : Nat → Option (List Nat)) (char : Nat) :
    List Nat :=
  if 0xA1 ≤ char then
    match dec char with
    | some o => if o = [] then [char] else o
    | none => [char]
  else [char]

/-- `replaceCompressed` (doc.go lines 206-271): the fixed table first;
in the `default` branch bytes `>= 0x80` go to `handleANSICharacter` and
bytes below `0x80` pass through unchanged. -/
def replaceCompressed (dec : Nat → Option (List Nat)) (char : Nat) :
    List Nat :=
  match replaceCompressedFixed char with
  | some v => [v]
  | none => if 0x80 ≤ char then handleANSICharacter dec char else [char]

/-- The per-piece decoder state of `translateCompressedText` /
`translateUncompressedText`: the `fieldLevel` counter and the
`isFieldChar` flag, both local variables initialised afresh for each
piece. -/
structure FieldState where
  fieldLevel : Int
  isFieldChar : Bool
  deriving DecidableEq, Repr

/-- One iteration of the loop body of `translateCompressedText` (doc.go
lines 123-151) on character value `c`: field markers 0x13/0x14/0x15,
suppression while `isFieldChar`, table-cell separator 7 as a space,
non-printable filtering, then `replaceCompressed`. -/
def stepC (dec : Nat → Option (List Nat)) (s : FieldState) (c : Nat) :
    FieldState × List Nat :=
  if c = 0x13 then (⟨s.fieldLevel + 1, true⟩, [])
  else if c = 0x14 then (⟨s.fieldLevel, false⟩, [])
  else if c = 0x15 then (⟨s.fieldLevel - 1, false⟩, [])
  else if s.isFieldChar then (s, [])
  else if c = 7 then (s, [0x20])
  else if c < 32 ∧ c ≠ 9 ∧ c ≠ 10 ∧ c ≠ 13 then (s, [])
  else (s, replaceCompressed dec c)

/-- The loop of `translateCompressedText` from an explicit state,
returning the final state and the emitted scalars. -/
def runC (dec : Nat → Option (List Nat)) (s : FieldState) :
    List Nat → FieldState × List Nat
  | [] => (s, [])
  | c :: cs =>
    let p := stepC dec s c
    let q := runC dec p.1 cs
    (q.1, p.2 ++ q.2)

/-- `translateCompressedText` (doc.go lines 119-153): `fieldLevel = 0`,
`isFieldChar = false` at entry. -/
def translateCompressedText (dec : Nat → Option (List Nat))
    (b : List Nat) : List Nat :=
  (runC dec ⟨0, false⟩ b).2

/-- `utf8.ValidRune` restricted to the values a `uint16` can take
(no negatives, so only the surrogate range and the upper bound matter). -/
def utf8ValidRune (r : Nat) : Bool :=
  decide (r < 0xD800 ∨ (0xDFFF < r ∧ r ≤ 0x10FFFF))

/-- The pairing loop head of `translateUncompressedText` (doc.go line
160-162): `for i := 0; i < len(b)-1; i += 2` with
`binary.LittleEndian.Uint16`; a trailing odd byte is never read. -/
def leWords : List Nat → List Nat
  | b0 :: b1 :: rest => (b0 + 256 * b1) :: leWords rest
  | _ => []

/-- One iteration of the loop body of `translateUncompressedText` (doc.go
lines 164-200) on the 16-bit code unit `c`: same field and control
handling as the compressed path, then ASCII pass-through for `c ≤ 0x7F`
and direct scalar emission guarded by `utf8.ValidRune` otherwise. -/
def stepU (s : FieldState) (c : Nat) : FieldState × List Nat :=
  if c = 0x13 then (⟨s.fieldLevel + 1, true⟩, [])
  else if c = 0x14 then (⟨s.fieldLevel, false⟩, [])
  else if c = 0x15 then (⟨s.fieldLevel - 1, false⟩, [])
  else if s.isFieldChar then (s, [])
  else if c = 7 then (s, [0x20])
  else if c < 32 ∧ c ≠ 9 ∧ c ≠ 10 ∧ c ≠ 13 then (s, [])
  else if c ≤ 0x7F then (s, [c])
  else if utf8ValidRune c then (s, [c])
  else (s, [])

/-- The loop of `translateUncompressedText` over code units from an
explicit state. -/
def runU (s : FieldState) : List Nat → FieldState × List Nat
  | [] => (s, [])
  | c :: cs =>
    let p := stepU s c
    let q := runU p.1 cs
    (q.1, p.2 ++ q.2)

/-- `translateUncompressedText` (doc.go lines 155-203) on the raw bytes of
a piece (the unused `fib` argument is dropped). -/
def translateUncompressedText (b : List Nat) : List Nat :=
  (runU ⟨0, false⟩ (leWords b)).2

/-- `translateText` (doc.go lines 109-117). -/
def translateText (dec : Nat → Option (List Nat)) (b : List Nat)
    (fCompressed : Bool) : List Nat :=
  if fCompressed then translateCompressedText dec b
  else translateUncompressedText b

/-- The decoded part of a piece descriptor as stored in the piece table
(`pcd.fc`): the raw 32-bit file-character value with the compression flag
bit already cleared, plus the flag itself. -/
structure Fc where
  fc : Nat
  fCompressed : Bool
  deriving DecidableEq, Repr

/-- One entry of the piece table as consumed by the loop of `getText`:
the descriptor `pcd.fc` together with its character-position boundary pair
`aCP[i]`, `aCP[i+1]`. -/
structure Piece where
  cp : Nat
  cpNext : Nat
  fc : Fc
  deriving DecidableEq, Repr

/-- The byte-range computation of `getText` (doc.go lines 86-93):
compressed pieces read `[fc/2, fc/2 + (cpNext-cp))`, uncompressed pieces
read `[fc, fc + 2*(cpNext-cp))`. -/
def pieceRange (p : Piece) : Nat × Nat :=
  if p.fc.fCompressed then
    (p.fc.fc / 2, p.fc.fc / 2 + (p.cpNext - p.cp))
  else
    (p.fc.fc, p.fc.fc + 2 * (p.cpNext - p.cp))

/-- Modelled from the spec: the piece-descriptor unpacking performed by the
CLX parser (`getClx`, not present under src/). Per §4.3, the designated
flag bit of the 32-bit file-character value selects the encoding; with the
flag bit already cleared (as in the stored `pcd.fc.fc`), the decoded byte
offset is the value divided by `2` for a compressed piece and the value
itself for an uncompressed one. -/
def decodedByteOffset (f : Fc) : Nat :=
  if f.fCompressed then f.fc / 2 else f.fc

/-- `mscfb.File.ReadAt` on the WordDocument stream, per the `io.ReaderAt`
contract: reading `len` bytes at `start` succeeds only when the stream
holds that many bytes, otherwise it returns an error (a short read). -/
def readAt (stream : List Nat) (start len : Nat) : Option (List Nat) :=
  if start + len ≤ stream.length then some ((stream.drop start).take len)
  else none

/-- The loop of `getText` (doc.go lines 79-107): per piece, compute the
byte range, read it from the WordDocument stream, decode it with
`translateText` and append to the buffer; any read error aborts the whole
extraction with an error and no text. -/
def getText (dec : Nat → Option (List Nat)) (stream : List Nat) :
    List Piece → Except String (List Nat)
  | [] => .ok []
  | p :: ps =>
    let r := pieceRange p
    match readAt stream r.1 (r.2 - r.1) with
    | none => .error "read past end of WordDocument stream"
    | some b =>
      match getText dec stream ps with
      | .error e => .error e
      | .ok t => .ok (translateText dec b p.fc.fCompressed ++ t)

/-- The two values the name `ra` can denote inside `ParseDoc` (doc.go
lines 36-45): the reader obtained from the successful type assertion
`r.(io.ReaderAt)`, or the in-memory buffered copy made by
`toMemoryBuffer`. -/
inductive RaSource where
  | asserted
  | buffered
  deriving DecidableEq, Repr

/-- The reader that reaches `mscfb.New(ra)` at doc.go line 45, under Go's
scoping rules: `ra, ok := r.(io.ReaderAt)` binds the outer `ra` (the nil
interface value when `ok` is false); inside `if !ok`, the short variable
declaration `ra, _, err := toMemoryBuffer(r)` declares a NEW `ra` that
shadows the outer one and goes out of scope at the end of the block, so
line 45 always reads the outer `ra`. -/
def parseDocContainerArg (hasReaderAt : Bool) : Option RaSource :=
  if hasReaderAt then some .asserted else none

/-- `ParseDoc` (doc.go lines 35-67) abstracted over the rest of the
pipeline: `mscfb.New` is invoked on the reader selected by
`parseDocContainerArg`; with a nil reader no container can be read (in Go
a method call through the nil interface faults), so extraction can only
proceed when a real reader was passed. -/
def parseDoc (rest : RaSource → Except String (List Nat))
    (hasReaderAt : Bool) : Except String (List Nat) :=
  match parseDocContainerArg hasReaderAt with
  | none => .error "mscfb.New: nil reader"
  | some ra => rest ra

/-- GBK oracle that always fails; with a single isolated byte and
`atEOF = false` the source's `decoder.Transform` call reports
`ErrShortSrc`, so this is also the oracle realised by the source for
every 1-byte input. Used to instantiate closed statements. -/
def gbkNone : Nat → Option (List Nat) := fun _ => none

/-- The bytes `getText` reads for piece `p` when the read succeeds. -/
def pieceBytes (stream : List Nat) (p : Piece) : List Nat :=
  (stream.drop (pieceRange p).1).take ((pieceRange p).2 - (pieceRange p).1)

/-- What the loop body of `translateCompressedText` emits for a
non-marker character met outside field-code mode. -/
def emitC (dec : Nat → Option (List Nat)) (c : Nat) : List Nat :=
  if c = 7 then [0x20]
  else if c < 32 ∧ c ≠ 9 ∧ c ≠ 10 ∧ c ≠ 13 then []
  else replaceCompressed dec c

/-- What the loop body of `translateUncompressedText` emits for a
non-marker code unit met outside field-code mode. -/
def emitU (c : Nat) : List Nat :=
  if c = 7 then [0x20]
  else if c < 32 ∧ c ≠ 9 ∧ c ≠ 10 ∧ c ≠ 13 then []
  else if c ≤ 0x7F then [c]
  else if utf8ValidRune c then [c]
  else []

section RunLemmas

variable (dec : Nat → Option (List Nat))

theorem runC_append (s : FieldState) (a b : List Nat) :
    runC dec s (a ++ b) =
      ((runC dec (runC dec s a).1 b).1,
        (runC dec s a).2 ++ (runC dec (runC dec s a).1 b).2) := by
  induction a generalizing s with
  | nil => simp [runC]
  | cons c cs ih => simp [runC, ih]

theorem stepC_inField (l : Int) (c : Nat)
    (h13 : c ≠ 0x13) (h14 : c ≠ 0x14) (h15 : c ≠ 0x15) :
    stepC dec ⟨l, true⟩ c = (⟨l, true⟩, []) := by
  simp [stepC, h13, h14, h15]

theorem stepC_noField (l : Int) (c : Nat)
    (h13 : c ≠ 0x13) (h14 : c ≠ 0x14) (h15 : c ≠ 0x15) :
    stepC dec ⟨l, false⟩ c = (⟨l, false⟩, emitC dec c) := by
  simp only [stepC, emitC, h13, h14, h15, if_false, if_neg]
  split_ifs <;> simp_all

theorem runC_inField (l : Int) (xs : List Nat)
    (h : ∀ c ∈ xs, c ≠ 0x13 ∧ c ≠ 0x14 ∧ c ≠ 0x15) :
    runC dec ⟨l, true⟩ xs = (⟨l, true⟩, []) := by
  induction xs with
  | nil => rfl
  | cons c cs ih =>
    obtain ⟨hc, hcs⟩ := List.forall_mem_cons.mp h
    simp [runC, stepC_inField dec l c hc.1 hc.2.1 hc.2.2, ih hcs]

theorem runC_noField (l : Int) (xs : List Nat)
    (h : ∀ c ∈ xs, c ≠ 0x13 ∧ c ≠ 0x14 ∧ c ≠ 0x15) :
    runC dec ⟨l, false⟩ xs = (⟨l, false⟩, xs.flatMap (emitC dec)) := by
  induction xs with
  | nil => rfl
  | cons c cs ih =>
    obtain ⟨hc, hcs⟩ := List.forall_mem_cons.mp h
    simp [runC, stepC_noField dec l c hc.1 hc.2.1 hc.2.2, ih hcs]

theorem translateCompressedText_eq_bind (xs : List Nat)
    (h : ∀ c ∈ xs, c ≠ 0x13 ∧ c ≠ 0x14 ∧ c ≠ 0x15) :
    translateCompressedText dec xs = xs.flatMap (emitC dec) := by
  unfold translateCompressedText
  rw [runC_noField dec 0 xs h]

theorem runU_append (s : FieldState) (a b : List Nat) :
    runU s (a ++ b) =
      ((runU (runU s a).1 b).1,
        (runU s a).2 ++ (runU (runU s a).1 b).2) := by
  induction a generalizing s with
  | nil => simp [runU]
  | cons c cs ih => simp [runU, ih]

theorem stepU_inField (l : Int) (c : Nat)
    (h13 : c ≠ 0x13) (h14 : c ≠ 0x14) (h15 : c ≠ 0x15) :
    stepU ⟨l, true⟩ c = (⟨l, true⟩, []) := by
  simp [stepU, h13, h14, h15]

theorem stepU_noField (l : Int) (c : Nat)
    (h13 : c ≠ 0x13) (h14 : c ≠ 0x14) (h15 : c ≠ 0x15) :
    stepU ⟨l, false⟩ c = (⟨l, false⟩, emitU c) := by
  simp only [stepU, emitU, h13, h14, h15, if_false, if_neg]
  split_ifs <;> simp_all

theorem runU_inField (l : Int) (xs : List Nat)
    (h : ∀ c ∈ xs, c ≠ 0x13 ∧ c ≠ 0x14 ∧ c ≠ 0x15) :
    runU ⟨l, true⟩ xs = (⟨l, true⟩, []) := by
  induction xs with
  | nil => rfl
  | cons c cs ih =>
    obtain ⟨hc, hcs⟩ := List.forall_mem_cons.mp h
    simp [runU, stepU_inField l c hc.1 hc.2.1 hc.2.2, ih hcs]

theorem runU_noField (l : Int) (xs : List Nat)
    (h : ∀ c ∈ xs, c ≠ 0x13 ∧ c ≠ 0x14 ∧ c ≠ 0x15) :
    runU ⟨l, false⟩ xs = (⟨l, false⟩, xs.flatMap emitU) := by
  induction xs with
  | nil => rfl
  | cons c cs ih =>
    obtain ⟨hc, hcs⟩ := List.forall_mem_cons.mp h
    simp [runU, stepU_noField l c hc.1 hc.2.1 hc.2.2, ih hcs]

end RunLemmas

theorem pieceRange_start_le_end (p : Piece) :
    (pieceRange p).1 ≤ (pieceRange p).2 := by
  unfold pieceRange
  split <;> simp

theorem runC_field_segment (dec : Nat → Option (List Nat)) (s : FieldState)
    (xs ys : List Nat)
    (hx : ∀ c ∈ xs, c ≠ 0x13 ∧ c ≠ 0x14 ∧ c ≠ 0x15)
    (hy : ∀ c ∈ ys, c ≠ 0x13 ∧ c ≠ 0x14 ∧ c ≠ 0x15) :
    runC dec s (0x13 :: (xs ++ (0x14 :: (ys ++ [0x15]))))
      = (⟨s.fieldLevel, false⟩, ys.flatMap (emitC dec)) := by
  have h2 := runC_inField dec (s.fieldLevel + 1) xs hx
  have h4 := runC_noField dec (s.fieldLevel + 1) ys hy
  simp [runC, stepC, runC_append, h2, h4, FieldState.mk.injEq]

theorem runU_field_segment (s : FieldState) (xs ys : List Nat)
    (hx : ∀ c ∈ xs, c ≠ 0x13 ∧ c ≠ 0x14 ∧ c ≠ 0x15)
    (hy : ∀ c ∈ ys, c ≠ 0x13 ∧ c ≠ 0x14 ∧ c ≠ 0x15) :
    runU s (0x13 :: (xs ++ (0x14 :: (ys ++ [0x15]))))
      = (⟨s.fieldLevel, false⟩, ys.flatMap emitU) := by
  have h2 := runU_inField (s.fieldLevel + 1) xs hx
  have h4 := runU_noField (s.fieldLevel + 1) ys hy
  simp [runU, stepU, runU_append, h2, h4, FieldState.mk.injEq]

/-- C1: For every piece `i` with character length
`L = characterBoundaries[i+1] - characterBoundaries[i]` and decoded byte
offset `O` (per §4.3, the flag-cleared file-character value divided by 2
for a compressed piece, used directly for an uncompressed one), the byte
range `getText` reads from the WordDocument stream is exactly `[O, O+L)`
when the piece is compressed and `[O, O+2L)` when it is uncompressed.
The hypothesis `p.cp ≤ p.cpNext` is the spec's monotone-boundary
invariant, under which Go's `int` subtraction agrees with `Nat`
subtraction. -/
theorem pieceRange_eq_decodedByteOffset (p : Piece) (h : p.cp ≤ p.cpNext) :
    pieceRange p =
      (decodedByteOffset p.fc,
        decodedByteOffset p.fc +
          (if p.fc.fCompressed then 1 else 2) * (p.cpNext - p.cp)) := by
  unfold pieceRange decodedByteOffset
  rcases p with ⟨cp, cpN, ⟨v, fcomp⟩⟩
  cases fcomp <;> simp

/-- Witness for C1 at a concrete compressed piece: character length 3 at
stored file-character value 10, hence decoded byte offset 5 and byte
range `[5, 8)`. -/
theorem pieceRange_eq_decodedByteOffset_witness :
    (0 : Nat) ≤ 3 ∧
      pieceRange ⟨0, 3, ⟨10, true⟩⟩ =
        (decodedByteOffset ⟨10, true⟩,
          decodedByteOffset ⟨10, true⟩ +
            (if (true : Bool) then 1 else 2) * (3 - 0)) :=
  ⟨by decide, pieceRange_eq_decodedByteOffset ⟨0, 3, ⟨10, true⟩⟩ (by decide)⟩

/-- C2: In both decoding paths, a field sequence
`0x13, xs…, 0x14, ys…, 0x15` (with `xs`, `ys` free of the three marker
values) contributes exactly the normal translation of `ys`, from any
decoder state: the three markers are never emitted, every instruction
character in `xs` is suppressed regardless of its value, and the result
characters `ys` are emitted exactly as a standalone decode would emit
them (so `0x13,'x','x','x',0x14,'y','y',0x15` yields `"yy"`). The final
state has `isFieldChar = false` and the entry nesting level. -/
theorem field_sequence_keeps_result_only
    (dec : Nat → Option (List Nat)) (s : FieldState) (xs ys : List Nat)
    (hx : ∀ c ∈ xs, c ≠ 0x13 ∧ c ≠ 0x14 ∧ c ≠ 0x15)
    (hy : ∀ c ∈ ys, c ≠ 0x13 ∧ c ≠ 0x14 ∧ c ≠ 0x15) :
    runC dec s (0x13 :: (xs ++ (0x14 :: (ys ++ [0x15]))))
        = (⟨s.fieldLevel, false⟩, translateCompressedText dec ys)
      ∧ runU s (0x13 :: (xs ++ (0x14 :: (ys ++ [0x15]))))
        = (⟨s.fieldLevel, false⟩, (runU ⟨0, false⟩ ys).2) := by
  constructor
  · rw [runC_field_segment dec s xs ys hx hy,
      translateCompressedText_eq_bind dec ys hy]
  · rw [runU_field_segment s xs ys hx hy, runU_noField 0 ys hy]

/-- Witness for C2: the spec's example `[0x13,'x','x','x',0x14,'y','y',
0x15]` decodes to exactly `"yy"` on both paths. -/
theorem field_sequence_keeps_result_only_witness :
    runC gbkNone ⟨0, false⟩
        (0x13 :: ([0x78, 0x78, 0x78] ++ (0x14 :: ([0x79, 0x79] ++ [0x15]))))
        = (⟨0, false⟩, translateCompressedText gbkNone [0x79, 0x79])
      ∧ runU ⟨0, false⟩
        (0x13 :: ([0x78, 0x78, 0x78] ++ (0x14 :: ([0x79, 0x79] ++ [0x15]))))
        = (⟨0, false⟩, (runU ⟨0, false⟩ [0x79, 0x79]).2)
      ∧ translateCompressedText gbkNone [0x79, 0x79] = [0x79, 0x79] :=
  ⟨(field_sequence_keeps_result_only gbkNone ⟨0, false⟩ [0x78, 0x78, 0x78]
      [0x79, 0x79] (by decide) (by decide)).1,
    (field_sequence_keeps_result_only gbkNone ⟨0, false⟩ [0x78, 0x78, 0x78]
      [0x79, 0x79] (by decide) (by decide)).2,
    by decide⟩

/-- C3 counterexample: the piece `[0x13, 0x13, 'a', 0x15, 'b', 0x15]`
contains two consecutive field-begin markers followed by the two matching
field-end markers, and no field separator 0x14, so both `'a'` and `'b'`
are instruction text; yet decoding emits `"b"`: the first 0x15 already
clears `isFieldChar`, so the outer level's instruction character after it
is not suppressed, contradicting the claim. -/
theorem nested_field_counterexample :
    translateCompressedText gbkNone [0x13, 0x13, 0x61, 0x15, 0x62, 0x15]
      = [0x62] := by decide

/-- C3 amended: for two consecutive 0x13 markers followed (with no
intervening marker) by the first matching 0x15, nothing is emitted up to
and including that first 0x15, and the nesting-depth counter has then
decreased only to entry level + 1 — it returns to the entry level only
after the second 0x15; however the first 0x15 already clears the
suppression flag, so (marker-free) characters `ys` between the two 0x15
markers are emitted exactly as a standalone decode would emit them, on
both decoding paths. -/
theorem nested_field_amended
    (dec : Nat → Option (List Nat)) (l : Int) (xs ys : List Nat)
    (hx : ∀ c ∈ xs, c ≠ 0x13 ∧ c ≠ 0x14 ∧ c ≠ 0x15)
    (hy : ∀ c ∈ ys, c ≠ 0x13 ∧ c ≠ 0x14 ∧ c ≠ 0x15) :
    runC dec ⟨l, false⟩ (0x13 :: 0x13 :: (xs ++ [0x15]))
        = (⟨l + 1, false⟩, [])
      ∧ runC dec ⟨l, false⟩ (0x13 :: 0x13 :: (xs ++ (0x15 :: (ys ++ [0x15]))))
        = (⟨l, false⟩, translateCompressedText dec ys)
      ∧ runU ⟨l, false⟩ (0x13 :: 0x13 :: (xs ++ [0x15]))
        = (⟨l + 1, false⟩, [])
      ∧ runU ⟨l, false⟩ (0x13 :: 0x13 :: (xs ++ (0x15 :: (ys ++ [0x15]))))
        = (⟨l, false⟩, (runU ⟨0, false⟩ ys).2) := by
  have hinC : ∀ m : Int, runC dec ⟨m, true⟩ xs = (⟨m, true⟩, []) :=
    fun m => runC_inField dec m xs hx
  have hnoC : ∀ m : Int,
      runC dec ⟨m, false⟩ ys = (⟨m, false⟩, ys.flatMap (emitC dec)) :=
    fun m => runC_noField dec m ys hy
  have hinU : ∀ m : Int, runU ⟨m, true⟩ xs = (⟨m, true⟩, []) :=
    fun m => runU_inField m xs hx
  have hnoU : ∀ m : Int, runU ⟨m, false⟩ ys = (⟨m, false⟩, ys.flatMap emitU) :=
    fun m => runU_noField m ys hy
  refine ⟨?_, ?_, ?_, ?_⟩
  · simp [runC, stepC, runC_append, hinC, FieldState.mk.injEq]
  · rw [translateCompressedText_eq_bind dec ys hy]
    simp [runC, stepC, runC_append, hinC, hnoC, FieldState.mk.injEq]
  · simp [runU, stepU, runU_append, hinU, FieldState.mk.injEq]
  · rw [runU_noField 0 ys hy]
    simp [runU, stepU, runU_append, hinU, hnoU, FieldState.mk.injEq]

/-- Witness for C3 (amended claim) at concrete instruction text: both
0x15 markers are needed before the counter is back to 0, and the
character between the two 0x15 markers is emitted. -/
theorem nested_field_amended_witness :
    runC gbkNone ⟨0, false⟩ (0x13 :: 0x13 :: ([0x61] ++ [0x15]))
        = (⟨1, false⟩, [])
      ∧ runC gbkNone ⟨0, false⟩
          (0x13 :: 0x13 :: ([0x61] ++ (0x15 :: ([0x62] ++ [0x15]))))
        = (⟨0, false⟩, translateCompressedText gbkNone [0x62]) :=
  ⟨(nested_field_amended gbkNone 0 [0x61] [0x62] (by decide) (by decide)).1,
    (nested_field_amended gbkNone 0 [0x61] [0x62] (by decide)
      (by decide)).2.1⟩

/-- C4: The decoder's field-mode state persists only within a single
piece: `getText` invokes `translateText` afresh for every piece, whose
local state starts at `fieldLevel = 0`, `isFieldChar = false`, so the
whole extraction is the concatenation of standalone per-piece decodes.
In particular an unterminated 0x13 in one piece never suppresses any
character of the following piece (the witness shows this concretely: a
piece ending in an open field is followed by a piece whose text is fully
emitted). -/
theorem getText_decodes_pieces_independently
    (dec : Nat → Option (List Nat)) (stream : List Nat) (ps : List Piece)
    (h : ∀ p ∈ ps, (pieceRange p).2 ≤ stream.length) :
    getText dec stream ps =
      .ok ((ps.map fun p =>
        translateText dec (pieceBytes stream p) p.fc.fCompressed).flatten) := by
  induction ps with
  | nil => rfl
  | cons p ps ih =>
    obtain ⟨hp, hps⟩ := List.forall_mem_cons.mp h
    have hr : readAt stream (pieceRange p).1
        ((pieceRange p).2 - (pieceRange p).1) = some (pieceBytes stream p) := by
      unfold readAt pieceBytes
      rw [if_pos]
      have := pieceRange_start_le_end p
      omega
    simp [getText, hr, ih hps]

/-- Witness for C4: the document stream `[0x13,'a','b']` split into the
compressed pieces `[0x13,'a']` (an unterminated field begin suppresses
the piece's own `'a'`) and `['b']`; the second piece still emits `'b'`
because the decoder state is reset at the piece boundary. -/
theorem getText_decodes_pieces_independently_witness :
    (∀ p ∈ ([⟨0, 2, ⟨0, true⟩⟩, ⟨2, 3, ⟨4, true⟩⟩] : List Piece),
        (pieceRange p).2 ≤ ([0x13, 0x61, 0x62] : List Nat).length)
      ∧ getText gbkNone [0x13, 0x61, 0x62] [⟨0, 2, ⟨0, true⟩⟩, ⟨2, 3, ⟨4, true⟩⟩]
        = .ok ((([⟨0, 2, ⟨0, true⟩⟩, ⟨2, 3, ⟨4, true⟩⟩] : List Piece).map fun p =>
            translateText gbkNone (pieceBytes [0x13, 0x61, 0x62] p)
              p.fc.fCompressed).flatten)
      ∧ translateCompressedText gbkNone [0x13, 0x61] = []
      ∧ translateCompressedText gbkNone [0x62] = [0x62] :=
  ⟨by decide,
    getText_decodes_pieces_independently gbkNone [0x13, 0x61, 0x62]
      [⟨0, 2, ⟨0, true⟩⟩, ⟨2, 3, ⟨4, true⟩⟩] (by decide),
    by decide, by decide⟩

/-- C9: A structural failure aborts the whole extraction: for every
document whose piece list contains a (non-empty) piece whose computed
byte range ends past the WordDocument stream's extent, `getText` (and
hence `ParseDoc`, which returns its result unchanged) returns an error,
and none of the text already decoded from earlier pieces is returned —
the error value carries no text. -/
theorem getText_out_of_range_errors
    (dec : Nat → Option (List Nat)) (stream : List Nat) (ps : List Piece)
    (h : ∃ p ∈ ps, p.cp < p.cpNext ∧ stream.length < (pieceRange p).2) :
    ∃ e, getText dec stream ps = .error e := by
  induction ps with
  | nil => simp at h
  | cons p ps ih =>
    by_cases hr : readAt stream (pieceRange p).1
        ((pieceRange p).2 - (pieceRange p).1) = none
    · exact ⟨"read past end of WordDocument stream", by simp [getText, hr]⟩
    · obtain ⟨b, hb⟩ := Option.ne_none_iff_exists'.mp hr
      have hrest : ∃ q ∈ ps, q.cp < q.cpNext ∧ stream.length < (pieceRange q).2 := by
        obtain ⟨q, hq, hqc, hqr⟩ := h
        rcases List.mem_cons.mp hq with rfl | hq'
        · exfalso
          apply hr
          unfold readAt
          rw [if_neg]
          have := pieceRange_start_le_end q
          omega
        · exact ⟨q, hq', hqc, hqr⟩
      obtain ⟨e, he⟩ := ih hrest
      exact ⟨e, by simp [getText, hb, he]⟩

/-- Witness for C9: a one-byte stream with a well-formed first piece and
a second piece reading bytes `[3, 5)` of a 2-byte stream: extraction
fails outright even though the first piece decoded cleanly. -/
theorem getText_out_of_range_errors_witness :
    (∃ p ∈ ([⟨0, 2, ⟨0, true⟩⟩, ⟨2, 4, ⟨6, true⟩⟩] : List Piece),
        p.cp < p.cpNext ∧ ([0x61, 0x62] : List Nat).length < (pieceRange p).2)
      ∧ ∃ e, getText gbkNone [0x61, 0x62]
          [⟨0, 2, ⟨0, true⟩⟩, ⟨2, 4, ⟨6, true⟩⟩] = .error e :=
  ⟨by decide,
    getText_out_of_range_errors gbkNone [0x61, 0x62]
      [⟨0, 2, ⟨0, true⟩⟩, ⟨2, 4, ⟨6, true⟩⟩] (by decide)⟩

/-- C5 counterexample: the little-endian byte pair `[0x00, 0xD8]` is the
single 16-bit code unit 0xD800, which is `> 0x7F` and not suppressed by
any field or control rule; yet decoding emits nothing, because
`utf8.ValidRune` rejects surrogate values and the source then writes
nothing — a non-suppressed character is silently dropped, contradicting
the claim. -/
theorem uncompressed_surrogate_dropped :
    translateUncompressedText [0x00, 0xD8] = [] := by decide

/-- C5 amended: every 16-bit code unit not suppressed by the field or
control rules produces output — values `≤ 0x7F` as the corresponding
ASCII code point and values `> 0x7F` directly as the Unicode scalar with
that number — except the UTF-16 surrogate code units 0xD800–0xDFFF,
which are silently dropped (`utf8.ValidRune` fails); decoding itself
never fails. -/
theorem stepU_emits_nonsuppressed (l : Int) (c : Nat) (hle : c ≤ 0xFFFF)
    (hns : 32 ≤ c ∨ c = 9 ∨ c = 10 ∨ c = 13) :
    stepU ⟨l, false⟩ c =
      (⟨l, false⟩, if 0xD800 ≤ c ∧ c ≤ 0xDFFF then [] else [c]) := by
  rw [stepU_noField l c (by omega) (by omega) (by omega)]
  unfold emitU
  rw [if_neg (by omega), if_neg (by omega)]
  by_cases hA : c ≤ 0x7F
  · rw [if_pos hA, if_neg (by omega)]
  · rw [if_neg hA]
    by_cases hs : 0xD800 ≤ c ∧ c ≤ 0xDFFF
    · rw [if_pos hs]
      have hv : utf8ValidRune c = false := by
        simp only [utf8ValidRune, decide_eq_false_iff_not]
        omega
      rw [hv]
      simp
    · rw [if_neg hs]
      have hv : utf8ValidRune c = true := by
        simp only [utf8ValidRune, decide_eq_true_eq]
        omega
      rw [hv]
      simp

/-- Witness for C5 (amended claim): the en-dash code unit 0x2013 is
emitted directly as the scalar 0x2013. -/
theorem stepU_emits_nonsuppressed_witness :
    (0x2013 : Nat) ≤ 0xFFFF
      ∧ (32 ≤ (0x2013 : Nat) ∨ (0x2013 : Nat) = 9 ∨ (0x2013 : Nat) = 10
          ∨ (0x2013 : Nat) = 13)
      ∧ stepU ⟨0, false⟩ 0x2013 = (⟨0, false⟩, [0x2013]) :=
  ⟨by decide, by decide,
    (stepU_emits_nonsuppressed 0 0x2013 (by decide) (by decide)).trans
      (by decide)⟩

/-- C6 counterexample: the fixed upper-control translation table of
`replaceCompressed` contains 24 mappings, not 27 (Windows-1252 defines
27 characters in 0x80–0x9F, but the source omits 0x80, 0x8E and 0x9E). -/
theorem fixed_table_not_27 :
    ¬((List.range 256).filter
        (fun c => (replaceCompressedFixed c).isSome)).length = 27 := by
  decide

/-- C6 amended: the fixed table contains exactly 24 mappings, covering
bytes 0x82–0x8C, 0x91–0x9C and 0x9F, each emitting the corresponding
Unicode character; in particular 0x93 decodes to U+201C (left double
quotation mark) and 0x96 to U+2013 (en dash). -/
theorem fixed_table_mappings (dec : Nat → Option (List Nat)) :
    ((List.range 256).filterMap
        (fun c => (replaceCompressedFixed c).map (fun v => (c, v))))
      = [(0x82, 0x201A), (0x83, 0x0192), (0x84, 0x201E), (0x85, 0x2026),
         (0x86, 0x2020), (0x87, 0x2021), (0x88, 0x02C6), (0x89, 0x2030),
         (0x8A, 0x0160), (0x8B, 0x2039), (0x8C, 0x0152), (0x91, 0x2018),
         (0x92, 0x2019), (0x93, 0x201C), (0x94, 0x201D), (0x95, 0x2022),
         (0x96, 0x2013), (0x97, 0x2014), (0x98, 0x02DC), (0x99, 0x2122),
         (0x9A, 0x0161), (0x9B, 0x203A), (0x9C, 0x0153), (0x9F, 0x0178)]
      ∧ ((List.range 256).filter
          (fun c => (replaceCompressedFixed c).isSome)).length = 24
      ∧ replaceCompressed dec 0x93 = [0x201C]
      ∧ replaceCompressed dec 0x96 = [0x2013]
      ∧ ∀ c v, replaceCompressedFixed c = some v →
          replaceCompressed dec c = [v] := by
  refine ⟨by decide, by decide, rfl, rfl, ?_⟩
  intro c v h
  unfold replaceCompressed
  rw [h]

/-- Witness for C6 (amended claim) at byte 0x91: mapped, and emitted as
its table value U+2018. -/
theorem fixed_table_mappings_witness :
    replaceCompressedFixed 0x91 = some 0x2018
      ∧ replaceCompressed gbkNone 0x91 = [0x2018] :=
  ⟨rfl, (fixed_table_mappings gbkNone).2.2.2.2 0x91 0x2018 rfl⟩

/-- C7: a byte in 0x80–0xFF without a fixed-table mapping never causes an
error: for `c ≥ 0xA1` the GBK oracle is consulted and its (non-empty)
result emitted on success; on oracle failure, or for any uncovered byte
in 0x80–0xA0, the raw byte value is emitted as a single code point; and
the result is always non-empty (no hard failure, no silent drop). -/
theorem ansi_fallback_totality (dec : Nat → Option (List Nat)) (c : Nat)
    (h1 : 0x80 ≤ c) (h2 : c ≤ 0xFF) (h3 : replaceCompressedFixed c = none) :
    (c < 0xA1 → replaceCompressed dec c = [c])
      ∧ (0xA1 ≤ c → dec c = none → replaceCompressed dec c = [c])
      ∧ (0xA1 ≤ c → ∀ o, dec c = some o → o ≠ [] →
          replaceCompressed dec c = o)
      ∧ 0 < (replaceCompressed dec c).length := by
  have hrc : replaceCompressed dec c = handleANSICharacter dec c := by
    unfold replaceCompressed
    rw [h3, if_pos h1]
  refine ⟨?_, ?_, ?_, ?_⟩
  · intro hlt
    rw [hrc]
    unfold handleANSICharacter
    rw [if_neg (by omega)]
  · intro hge hdec
    rw [hrc]
    unfold handleANSICharacter
    rw [if_pos hge, hdec]
  · intro hge o ho hne
    rw [hrc]
    unfold handleANSICharacter
    rw [if_pos hge, ho]
    simp [hne]
  · rw [hrc]
    unfold handleANSICharacter
    by_cases hge : 0xA1 ≤ c
    · rw [if_pos hge]
      cases hdc : dec c with
      | none => simp
      | some o =>
        by_cases ho : o = [] <;> simp [ho, List.length_pos]
    · rw [if_neg hge]
      simp

/-- Witness for C7: uncovered byte 0x9D (< 0xA1) passes through raw;
0xA1-range byte 0xA5 passes through raw when the oracle fails and emits
the oracle's output when it succeeds. -/
theorem ansi_fallback_totality_witness :
    replaceCompressedFixed 0x9D = none
      ∧ replaceCompressed gbkNone 0x9D = [0x9D]
      ∧ replaceCompressed gbkNone 0xA5 = [0xA5]
      ∧ replaceCompressed (fun _ => some [0x4E2D]) 0xA5 = [0x4E2D] :=
  ⟨rfl,
    (ansi_fallback_totality gbkNone 0x9D (by decide) (by decide) rfl).1
      (by decide),
    (ansi_fallback_totality gbkNone 0xA5 (by decide) (by decide) rfl).2.1
      (by decide) rfl,
    (ansi_fallback_totality (fun _ => some [0x4E2D]) 0xA5 (by decide)
        (by decide) rfl).2.2.1 (by decide) [0x4E2D] rfl (by decide)⟩

/-- C8: in both decoding paths, outside field-code mode: character value
7 (table cell separator) is emitted as exactly one space; every value
< 32 other than 9, 10, 13 and the field markers 0x13/0x14/0x15 is
suppressed entirely; and 9, 10, 13 are emitted as themselves. -/
theorem control_values_both_paths (dec : Nat → Option (List Nat))
    (l : Int) :
    stepC dec ⟨l, false⟩ 7 = (⟨l, false⟩, [0x20])
      ∧ stepU ⟨l, false⟩ 7 = (⟨l, false⟩, [0x20])
      ∧ (∀ c, c < 32 → c ≠ 7 → c ≠ 9 → c ≠ 10 → c ≠ 13 →
          c ≠ 0x13 → c ≠ 0x14 → c ≠ 0x15 →
          stepC dec ⟨l, false⟩ c = (⟨l, false⟩, [])
            ∧ stepU ⟨l, false⟩ c = (⟨l, false⟩, []))
      ∧ (∀ c, c = 9 ∨ c = 10 ∨ c = 13 →
          stepC dec ⟨l, false⟩ c = (⟨l, false⟩, [c])
            ∧ stepU ⟨l, false⟩ c = (⟨l, false⟩, [c])) := by
  refine ⟨rfl, rfl, ?_, ?_⟩
  · intro c h1 h7 h9 h10 h13c h19 h20 h21
    constructor
    · rw [stepC_noField dec l c h19 h20 h21]
      unfold emitC
      rw [if_neg h7, if_pos ⟨h1, h9, h10, h13c⟩]
    · rw [stepU_noField l c h19 h20 h21]
      unfold emitU
      rw [if_neg h7, if_pos ⟨h1, h9, h10, h13c⟩]
  · intro c h
    rcases h with rfl | rfl | rfl <;> exact ⟨rfl, rfl⟩

/-- Witness for C8: value 7 becomes one space, value 1 is suppressed,
carriage return 13 is emitted, at nesting level 2 outside a field. -/
theorem control_values_both_paths_witness :
    stepC gbkNone ⟨2, false⟩ 7 = (⟨2, false⟩, [0x20])
      ∧ stepC gbkNone ⟨2, false⟩ 1 = (⟨2, false⟩, [])
      ∧ stepU ⟨2, false⟩ 13 = (⟨2, false⟩, [13]) :=
  ⟨(control_values_both_paths gbkNone 2).1,
    ((control_values_both_paths gbkNone 2).2.2.1 1 (by decide) (by decide)
      (by decide) (by decide) (by decide) (by decide) (by decide)
      (by decide)).1,
    ((control_values_both_paths gbkNone 2).2.2.2 13 (by decide)).2⟩

/-- C10: when the reader passed to `ParseDoc` does not implement
`io.ReaderAt`, the in-memory buffered copy created in the `if !ok` block
never reaches `mscfb.New`: the short variable declaration
`ra, _, err := toMemoryBuffer(r)` shadows the outer `ra`, which still
holds the nil result of the failed type assertion at line 45, so the
container parser receives nil — for every possible remainder of the
pipeline the call cannot succeed, and in fact `parseDocContainerArg`
returns the buffered copy for no input at all. -/
theorem parseDoc_shadowed_buffer
    (rest : RaSource → Except String (List Nat)) :
    parseDocContainerArg false = none
      ∧ parseDoc rest false = .error "mscfb.New: nil reader"
      ∧ (parseDoc rest false).isOk = false
      ∧ (∀ hasReaderAt : Bool,
          parseDocContainerArg hasReaderAt =
            if hasReaderAt then some .asserted else none) :=
  ⟨rfl, rfl, rfl, fun _ => rfl⟩

end Doc
